import Mathlib

/-!
Verification of the quant repository's backtest / signal / scoring core.

Shallow embedding of:
  - src/backtest.py : backtest_strategy, _empty_result, _calculate_max_drawdown,
    the signal-collapse step of backtest_stock, and the RSI / volume / trend
    dimensions of calc_score;
  - src/strategy.py : the combined score and combined signal of generate_signals.

Prices and capital are embedded as rationals (Python floats in the source),
dates as integers (calendar day numbers; pandas timestamps in the source:
subtraction of two dates yields the day count, matching (d2 - d1).days).
Signals are integers.  The two metrics that need transcendental arithmetic
(annual_return via a real power, sharpe_ratio via a square root) are outside
the claims under check and are not carried in the embedded result record.
-/

namespace Quant

/-- One bar of the input frame handed to backtest_strategy: its index entry
(date), its close price and the value of the chosen signal column. -/
structure Bar where
  date : ℤ
  close : ℚ
  signal : ℤ
  deriving DecidableEq

/-- A closed trade as appended to the trades list in src/backtest.py
(lines 155-164 and 179-188).  The Python dict key named after the reserved
word for function results is embedded as the field ret (percent return). -/
structure Trade where
  entry_date : ℤ
  entry_price : ℚ
  exit_date : ℤ
  exit_price : ℚ
  ret : ℚ
  return_abs : ℚ
  hold_days : ℤ
  deriving DecidableEq

/-- The mutable loop state of backtest_strategy (src/backtest.py lines
116-123): cash, position flag (false = flat 0, true = full 1), held shares,
entry bookkeeping, the trade ledger and the equity curve.  The source resets
entry_date to None when flat; entry_date is only ever read while long, so the
embedding keeps an integer and writes 0 at resets. -/
structure BTState where
  capital : ℚ
  held : Bool
  holding_shares : ℚ
  entry_price : ℚ
  entry_date : ℤ
  trades : List Trade
  equity_curve : List (ℤ × ℚ)
  deriving DecidableEq

/-- Initial state of the loop (src/backtest.py lines 116-123). -/
def initState (initial_capital : ℚ) : BTState :=
  { capital := initial_capital
  , held := false
  , holding_shares := 0
  , entry_price := 0
  , entry_date := 0
  , trades := []
  , equity_curve := [] }

/-- One iteration of the bar loop of backtest_strategy (src/backtest.py lines
126-171): mark-to-market equity is recorded first, then the signal is
processed (buy when signal == 1 and flat, sell when signal == -1 and long,
otherwise no change). -/
def processBar (initial_capital : ℚ) (st : BTState) (bar : Bar) : BTState :=
  let current_value := if st.held then st.holding_shares * bar.close else st.capital
  let st1 : BTState := { st with equity_curve := st.equity_curve ++ [(bar.date, current_value)] }
  if bar.signal = 1 ∧ st1.held = false then
    { st1 with
        held := true
      , entry_price := bar.close
      , entry_date := bar.date
      , holding_shares := st1.capital / bar.close
      , capital := 0 }
  else if bar.signal = -1 ∧ st1.held = true then
    let new_capital := st1.holding_shares * bar.close
    let trade : Trade :=
      { entry_date := st1.entry_date
      , entry_price := st1.entry_price
      , exit_date := bar.date
      , exit_price := bar.close
      , ret := (bar.close - st1.entry_price) / st1.entry_price * 100
      , return_abs := new_capital - initial_capital
      , hold_days := bar.date - st1.entry_date }
    { st1 with
        capital := new_capital
      , trades := st1.trades ++ [trade]
      , held := false
      , holding_shares := 0
      , entry_price := 0
      , entry_date := 0 }
  else st1

/-- Forced liquidation after the loop (src/backtest.py lines 173-190): when
still long, sell everything at the last bar's close and append a final trade.
The source clears only the position flag here (holding_shares is left as is),
and the embedding mirrors that. -/
def forceClose (initial_capital : ℚ) (lastBar : Bar) (st : BTState) : BTState :=
  if st.held then
    let new_capital := st.holding_shares * lastBar.close
    let trade : Trade :=
      { entry_date := st.entry_date
      , entry_price := st.entry_price
      , exit_date := lastBar.date
      , exit_price := lastBar.close
      , ret := (lastBar.close - st.entry_price) / st.entry_price * 100
      , return_abs := new_capital - initial_capital
      , hold_days := lastBar.date - st.entry_date }
    { st with
        capital := new_capital
      , trades := st.trades ++ [trade]
      , held := false }
  else st

/-- The whole bar loop of backtest_strategy. -/
def runBars (initial_capital : ℚ) (bars : List Bar) : BTState :=
  bars.foldl (processBar initial_capital) (initState initial_capital)

/-- Maximum drawdown of an equity curve (src/backtest.py lines 30-54):
running peak, percentage decline from the peak, maximum over the curve. -/
def _calculate_max_drawdown (equity_curve : List (ℤ × ℚ)) : ℚ :=
  match equity_curve.map Prod.snd with
  | [] => 0
  | v0 :: _ =>
      let step : ℚ × ℚ → ℚ → ℚ × ℚ := fun acc value =>
        let peak := if value > acc.1 then value else acc.1
        let dd := (peak - value) / peak * 100
        (peak, if dd > acc.2 then dd else acc.2)
      ((equity_curve.map Prod.snd).foldl step (v0, 0)).2

/-- The result record built by backtest_strategy (src/backtest.py lines
233-269).  annual_return and sharpe_ratio (real power / square root) are not
embedded; with no trades start_date and end_date are None in the source,
embedded as Option. -/
structure BacktestResult where
  strategy_name : String
  trades : List Trade
  trade_count : ℕ
  total_return : ℚ
  final_value : ℚ
  win_count : ℕ
  loss_count : ℕ
  win_rate : ℚ
  avg_win : ℚ
  avg_loss : ℚ
  profit_factor : ℚ
  max_drawdown : ℚ
  avg_hold_days : ℚ
  start_date : Option ℤ
  end_date : Option ℤ
  total_days : ℤ
  trading_days : ℤ
  equity_curve : List (ℤ × ℚ)
  deriving DecidableEq

/-- The neutral empty result (src/backtest.py lines 272-296).  Note that the
source hardcodes final_value = 1.0 (the default initial capital) and an empty
equity curve. -/
def _empty_result (strategy_name : String) : BacktestResult :=
  { strategy_name := strategy_name
  , trades := []
  , trade_count := 0
  , total_return := 0
  , final_value := 1
  , win_count := 0
  , loss_count := 0
  , win_rate := 0
  , avg_win := 0
  , avg_loss := 0
  , profit_factor := 0
  , max_drawdown := 0
  , avg_hold_days := 0
  , start_date := none
  , end_date := none
  , total_days := 0
  , trading_days := 0
  , equity_curve := [] }

/-- backtest_strategy (src/backtest.py lines 95-269) on a frame that does
contain the signal column: empty frame gives the empty result; otherwise run
the loop, force-close, and compute the statistics, returning the empty result
when no trade was closed.  np.mean of a nonempty list is sum over length. -/
def backtest_strategy (bars : List Bar) (strategy_name : String)
    (initial_capital : ℚ) : BacktestResult :=
  match bars with
  | [] => _empty_result strategy_name
  | b0 :: rest =>
      let lastBar := (b0 :: rest).getLast (List.cons_ne_nil b0 rest)
      let st := forceClose initial_capital lastBar (runBars initial_capital (b0 :: rest))
      let final_value := st.capital
      let total_return := (final_value - initial_capital) / initial_capital * 100
      let trades := st.trades
      let trade_count := trades.length
      if trade_count = 0 then _empty_result strategy_name
      else
        let win_trades := trades.filter (fun t => t.ret > 0)
        let loss_trades := trades.filter (fun t => t.ret ≤ 0)
        let win_count := win_trades.length
        let loss_count := loss_trades.length
        let win_rate := if trade_count > 0 then (win_count : ℚ) / (trade_count : ℚ) * 100 else 0
        let avg_win := if win_trades ≠ [] then (win_trades.map (fun t => t.ret)).sum / (win_count : ℚ) else 0
        let avg_loss := if loss_trades ≠ [] then (loss_trades.map (fun t => t.ret)).sum / (loss_count : ℚ) else 0
        let total_win := if win_trades ≠ [] then (win_trades.map (fun t => t.return_abs)).sum else 0
        let total_loss := if loss_trades ≠ [] then |(loss_trades.map (fun t => t.return_abs)).sum| else 0
        let profit_factor := if total_loss > 0 then total_win / total_loss else 0
        let start_date := b0.date
        let end_date := lastBar.date
        let total_days := end_date - start_date
        let trading_days : ℤ := (trades.map (fun t => t.hold_days)).sum
        let max_drawdown := _calculate_max_drawdown st.equity_curve
        let avg_hold_days := if trade_count > 0 then (trading_days : ℚ) / (trade_count : ℚ) else 0
        { strategy_name := strategy_name
        , trades := trades
        , trade_count := trade_count
        , total_return := total_return
        , final_value := final_value
        , win_count := win_count
        , loss_count := loss_count
        , win_rate := win_rate
        , avg_win := avg_win
        , avg_loss := avg_loss
        , profit_factor := profit_factor
        , max_drawdown := max_drawdown
        , avg_hold_days := avg_hold_days
        , start_date := some start_date
        , end_date := some end_date
        , total_days := total_days
        , trading_days := trading_days
        , equity_curve := st.equity_curve }

/-- The collapse applied by backtest_stock before backtesting the combined
strategy (src/backtest.py lines 460-462): a fresh column of zeros, then every
value at least 1 is set to 1 and every value at most -1 is set to -1 (the two
masks are disjoint, so the sequential assignments are this conditional). -/
def simplifySignal (s : ℤ) : ℤ :=
  if 1 ≤ s then 1 else if s ≤ -1 then -1 else 0

/-- The three indicator-snapshot dimensions of calc_score (src/backtest.py
lines 541-591).  The pattern values come from get_pattern: ma / macd are
either bull (true), bear (false) or missing. -/
structure DimScores where
  trend : ℤ
  rsi : ℤ
  volume : ℤ
  deriving DecidableEq

/-- Trend, RSI and volume sub-scores of calc_score (src/backtest.py lines
541-591), on the current pattern (ma, macd), current RSI and current volume
ratio; a missing value is None in the source, none here. -/
def calcScoreDims (ma macd : Option Bool) (rsi vol_ratio : Option ℚ) : DimScores :=
  let trend : ℤ :=
    if ma = some true ∧ macd = some true then 30
    else if ma = some true ∧ macd = some false then 20
    else if ma = some false ∧ macd = some true then 15
    else 5
  let rsiScore : ℤ :=
    match rsi with
    | some r => if r < 30 then 16 else if r < 50 then 20 else if r < 70 then 14 else 6
    | none => 10
  let volScore : ℤ :=
    match vol_ratio with
    | some v => if v < 0.7 then 5 else if v < 1.5 then 10 else if v < 2.5 then 8 else 4
    | none => 5
  { trend := trend, rsi := rsiScore, volume := volScore }

/-- The weighted combined score of generate_signals (src/strategy.py lines
154-160): signal*30 + boll*20 + volume*20 + kdj*15 + rsi*15. -/
def score_combined (s b v k r : ℤ) : ℤ :=
  s * 30 + b * 20 + v * 20 + k * 15 + r * 15

/-- The combined signal of generate_signals (src/strategy.py lines 164-169):
a column of zeros overwritten by five sequential masked assignments; the last
assignment whose mask holds wins. -/
def signal_combined (score : ℤ) : ℤ :=
  let s0 : ℤ := 0
  let s1 := if 60 ≤ score then 2 else s0
  let s2 := if 40 ≤ score ∧ score < 60 then 1 else s1
  let s3 := if -40 < score ∧ score < 40 then 0 else s2
  let s4 := if -60 < score ∧ score ≤ -40 then -1 else s3
  if score ≤ -60 then -2 else s4

/-- The spec's bucket map for the combined signal, written exactly as the
claim states it: at least 60 gives 2, [40,60) gives 1, (-40,40) gives 0,
(-60,-40] gives -1, at most -60 gives -2. -/
def signalBucketSpec (score : ℤ) : ℤ :=
  if 60 ≤ score then 2
  else if 40 ≤ score then 1
  else if -40 < score then 0
  else if -60 < score then -1
  else -2

/-- The 10-bar scenario of the spec: closes [10,11,12,11,13,14,12,15,16,14],
dates day 1 to day 10, signal column [0,0,1,0,0,-1,0,0,0,0]. -/
def demoBars : List Bar :=
  [ ⟨1, 10, 0⟩, ⟨2, 11, 0⟩, ⟨3, 12, 1⟩, ⟨4, 11, 0⟩, ⟨5, 13, 0⟩
  , ⟨6, 14, -1⟩, ⟨7, 12, 0⟩, ⟨8, 15, 0⟩, ⟨9, 16, 0⟩, ⟨10, 14, 0⟩ ]

/-- A 4-bar run closing two trades: a losing trade (100 to 50) followed by a
winning trade (50 to 55) whose cumulative return_abs is still negative. -/
def twoTradeBars : List Bar :=
  [ ⟨1, 100, 1⟩, ⟨2, 50, -1⟩, ⟨3, 50, 1⟩, ⟨4, 55, -1⟩ ]

/-- Two signal-less bars: the loop closes no trade, so backtest_strategy
falls back to the empty result. -/
def flatBars : List Bar :=
  [ ⟨1, 10, 0⟩, ⟨2, 11, 0⟩ ]

/-! Helper lemmas about the engine. -/

/-- Each loop iteration appends exactly one equity point, whatever the
signal branch taken. -/
lemma processBar_equity_length (ic : ℚ) (st : BTState) (b : Bar) :
    (processBar ic st b).equity_curve.length = st.equity_curve.length + 1 := by
  dsimp only [processBar]
  split_ifs <;> simp

/-- The bar loop appends one equity point per bar. -/
lemma foldl_equity_length (ic : ℚ) :
    ∀ (bars : List Bar) (st : BTState),
      ((bars.foldl (processBar ic) st).equity_curve.length
        = st.equity_curve.length + bars.length) := by
  intro bars
  induction bars with
  | nil => intro st; simp
  | cons b rest ih =>
      intro st
      simp only [List.foldl_cons, List.length_cons]
      rw [ih, processBar_equity_length]
      omega

/-- Forced liquidation does not touch the equity curve. -/
lemma forceClose_equity (ic : ℚ) (lb : Bar) (st : BTState) :
    (forceClose ic lb st).equity_curve = st.equity_curve := by
  unfold forceClose
  split <;> rfl

/-- C1 counterexample: on a 2-bar series with all-zero signals the claim's
invariant fails: the returned equity curve is empty, not one point per bar. -/
theorem equity_len_counterexample :
    ¬ ((backtest_strategy flatBars "s" 1).equity_curve.length = flatBars.length) := by
  decide

/-- C1 (amended): whenever at least one trade closes, the returned equity
curve has exactly one point per bar of the input series; when no trade
closes, backtest_strategy returns the neutral empty result whose equity
curve is empty. -/
theorem equity_len_amended (bars : List Bar) (name : String) (ic : ℚ) :
    ((backtest_strategy bars name ic).trade_count ≠ 0 →
      (backtest_strategy bars name ic).equity_curve.length = bars.length) ∧
    ((backtest_strategy bars name ic).trade_count = 0 →
      (backtest_strategy bars name ic).equity_curve = []) := by
  match bars with
  | [] =>
      constructor
      · intro h; exact absurd rfl h
      · intro _; rfl
  | b0 :: rest =>
      simp only [backtest_strategy]
      split
      · constructor
        · intro h; exact absurd rfl h
        · intro _; rfl
      · next hne =>
          constructor
          · intro _
            show (forceClose ic _ (runBars ic (b0 :: rest))).equity_curve.length = _
            rw [forceClose_equity]
            unfold runBars
            rw [foldl_equity_length]
            simp [initState]
          · intro h
            exact absurd h hne

/-- C1 witness: the amended invariant at two concrete runs — the demo series
closes one trade and yields a 10-point curve, the flat series closes none
and yields the empty curve. -/
theorem equity_len_amended_witness :
    ((backtest_strategy demoBars "s" 1).trade_count ≠ 0 ∧
      (backtest_strategy demoBars "s" 1).equity_curve.length = demoBars.length) ∧
    ((backtest_strategy flatBars "s" 1).trade_count = 0 ∧
      (backtest_strategy flatBars "s" 1).equity_curve = []) :=
  ⟨⟨by decide, (equity_len_amended demoBars "s" 1).1 (by decide)⟩,
   ⟨by decide, (equity_len_amended flatBars "s" 1).2 (by decide)⟩⟩

/-- C3 counterexample: with no closed trade and initial capital 2, the
returned final_value is the hardcoded 1.0 of _empty_result, not the initial
capital that was passed in. -/
theorem empty_final_value_counterexample :
    ¬ ((backtest_strategy flatBars "s" 2).final_value = 2) := by
  decide

/-- C3 (amended): when backtest_strategy closes zero trades it returns
exactly the neutral empty result, whose metric fields are all zero and whose
final_value is the constant 1.0 (the default initial capital), regardless of
the initial capital passed to the call. -/
theorem empty_result_amended (bars : List Bar) (name : String) (ic : ℚ) :
    (backtest_strategy bars name ic).trade_count = 0 →
      backtest_strategy bars name ic = _empty_result name ∧
      (_empty_result name).total_return = 0 ∧
      (_empty_result name).win_rate = 0 ∧
      (_empty_result name).profit_factor = 0 ∧
      (_empty_result name).max_drawdown = 0 ∧
      (_empty_result name).avg_win = 0 ∧
      (_empty_result name).avg_loss = 0 ∧
      (_empty_result name).final_value = 1 := by
  intro h
  refine ⟨?_, rfl, rfl, rfl, rfl, rfl, rfl, rfl⟩
  match bars with
  | [] => rfl
  | b0 :: rest =>
      revert h
      simp only [backtest_strategy]
      split
      · intro _; rfl
      · next hne => intro h; exact absurd h hne

/-- C3 witness: the amended statement at the concrete flat 2-bar run with
initial capital 2. -/
theorem empty_result_amended_witness :
    (backtest_strategy flatBars "s" 2).trade_count = 0 ∧
      backtest_strategy flatBars "s" 2 = _empty_result "s" ∧
      (_empty_result "s").final_value = 1 :=
  ⟨by decide,
   (empty_result_amended flatBars "s" 2 (by decide)).1,
   (empty_result_amended flatBars "s" 2 (by decide)).2.2.2.2.2.2.2⟩

/-- C4: in the scoring engine, whatever the other inputs are, a missing
current RSI makes the RSI dimension score exactly 10 and a missing current
volume ratio makes the volume dimension score exactly 5. -/
theorem missing_dims_default (ma macd : Option Bool) (rsi vol_ratio : Option ℚ) :
    (calcScoreDims ma macd none vol_ratio).rsi = 10 ∧
    (calcScoreDims ma macd rsi none).volume = 5 :=
  ⟨rfl, rfl⟩

/-- C5: the 10-bar demo series with signals [0,0,1,0,0,-1,0,0,0,0] produces
exactly one trade (entry 12 on day 3, exit 14 on day 6, return 50/3 percent)
and the stated equity curve: flat at capital through bar 1 (and at bar 2,
where shares times close also equals the capital), marked to market on bars
3-5, flat at the realized cash 7/6 thereafter. -/
theorem demo_scenario :
    (backtest_strategy demoBars "s" 1).trade_count = 1 ∧
    (backtest_strategy demoBars "s" 1).trades
      = [{ entry_date := 3, entry_price := 12, exit_date := 6, exit_price := 14
         , ret := 50 / 3, return_abs := 1 / 6, hold_days := 3 }] ∧
    (backtest_strategy demoBars "s" 1).equity_curve
      = [(1, 1), (2, 1), (3, 1), (4, 11 / 12), (5, 13 / 12), (6, 7 / 6)
        , (7, 7 / 6), (8, 7 / 6), (9, 7 / 6), (10, 7 / 6)] := by
  refine ⟨by decide, ?_, ?_⟩ <;>
    norm_num [backtest_strategy, runBars, forceClose, processBar, initState,
      demoBars, List.getLast]

/-- C6: the combined per-bar score is the stated weighted sum, the combined
signal produced by the sequential masked assignments equals the claim's
bucket map for every score, and the scenario with component signals
(1, 1, 0, 0, 0) scores 50 and maps to buy. -/
theorem combined_signal_spec :
    (∀ s b v k r : ℤ, score_combined s b v k r
        = 30 * s + 20 * b + 20 * v + 15 * k + 15 * r) ∧
    (∀ score : ℤ, signal_combined score = signalBucketSpec score) ∧
    score_combined 1 1 0 0 0 = 50 ∧
    signal_combined 50 = 1 := by
  refine ⟨?_, ?_, by decide, by decide⟩
  · intro s b v k r
    unfold score_combined
    ring
  · intro score
    dsimp only [signal_combined, signalBucketSpec]
    split_ifs <;> omega

/-- A concrete long state: 1/10 share held, bought at 10 on day 1. -/
def longDemoState : BTState :=
  { capital := 0, held := true, holding_shares := 1 / 10, entry_price := 10
  , entry_date := 1, trades := [], equity_curve := [] }

/-- A 2-bar series that buys on the first bar and never sells, so the run is
still long after the last bar. -/
def openEndBars : List Bar :=
  [ ⟨1, 10, 1⟩, ⟨2, 12, 0⟩ ]

/-- C2: through the collapse applied by backtest_stock before backtesting
the combined strategy, a raw signal of +2 on a flat state takes the very
same full-allocation buy transition as a signal of +1, and any raw signal at
most -1 (including -2) on a long state liquidates everything at the bar's
close, emitting the trade with return percentage (exit - entry)/entry*100. -/
theorem collapsed_signal_transitions (ic : ℚ) (st : BTState) (d : ℤ) (c : ℚ) (s : ℤ) :
    (st.held = false →
      processBar ic st ⟨d, c, simplifySignal 2⟩ = processBar ic st ⟨d, c, 1⟩ ∧
      (processBar ic st ⟨d, c, simplifySignal 2⟩).held = true ∧
      (processBar ic st ⟨d, c, simplifySignal 2⟩).entry_price = c ∧
      (processBar ic st ⟨d, c, simplifySignal 2⟩).entry_date = d ∧
      (processBar ic st ⟨d, c, simplifySignal 2⟩).holding_shares = st.capital / c ∧
      (processBar ic st ⟨d, c, simplifySignal 2⟩).capital = 0) ∧
    (st.held = true → s ≤ -1 →
      (processBar ic st ⟨d, c, simplifySignal s⟩).held = false ∧
      (processBar ic st ⟨d, c, simplifySignal s⟩).capital = st.holding_shares * c ∧
      (processBar ic st ⟨d, c, simplifySignal s⟩).trades
        = st.trades ++ [{ entry_date := st.entry_date, entry_price := st.entry_price
                        , exit_date := d, exit_price := c
                        , ret := (c - st.entry_price) / st.entry_price * 100
                        , return_abs := st.holding_shares * c - ic
                        , hold_days := d - st.entry_date }]) := by
  have h2 : simplifySignal 2 = 1 := by decide
  constructor
  · intro hflat
    rw [h2]
    refine ⟨rfl, ?_, ?_, ?_, ?_, ?_⟩ <;> simp [processBar, hflat]
  · intro hlong hs
    have hss : simplifySignal s = -1 := by
      unfold simplifySignal
      rw [if_neg (by omega), if_pos hs]
    rw [hss]
    refine ⟨?_, ?_, ?_⟩ <;> simp [processBar, hlong]

/-- C2 witness: the two transitions at concrete states — a collapsed +2 buy
from the fresh flat state, and a collapsed -2 liquidation from the concrete
long state. -/
theorem collapsed_signal_transitions_witness :
    (initState 1).held = false ∧
    processBar 1 (initState 1) ⟨5, 10, simplifySignal 2⟩
      = processBar 1 (initState 1) ⟨5, 10, 1⟩ ∧
    longDemoState.held = true ∧ (-2 : ℤ) ≤ -1 ∧
    (processBar 1 longDemoState ⟨5, 12, simplifySignal (-2)⟩).held = false :=
  ⟨rfl,
   ((collapsed_signal_transitions 1 (initState 1) 5 10 (-2)).1 rfl).1,
   rfl, by decide,
   ((collapsed_signal_transitions 1 longDemoState 5 12 (-2)).2 rfl (by decide)).1⟩

/-- C8: when the run is still long after the last bar, the engine
force-liquidates at the last bar's close: the post-loop state is flat, the
appended final trade exits at the last bar's date and close, and the trades
the result reports are exactly those of the force-closed state. -/
theorem forced_liquidation (bars : List Bar) (name : String) (ic : ℚ)
    (h : bars ≠ []) (hheld : (runBars ic bars).held = true) :
    (forceClose ic (bars.getLast h) (runBars ic bars)).held = false ∧
    (forceClose ic (bars.getLast h) (runBars ic bars)).trades
      = (runBars ic bars).trades ++
        [{ entry_date := (runBars ic bars).entry_date
         , entry_price := (runBars ic bars).entry_price
         , exit_date := (bars.getLast h).date
         , exit_price := (bars.getLast h).close
         , ret := ((bars.getLast h).close - (runBars ic bars).entry_price)
                    / (runBars ic bars).entry_price * 100
         , return_abs := (runBars ic bars).holding_shares * (bars.getLast h).close - ic
         , hold_days := (bars.getLast h).date - (runBars ic bars).entry_date }] ∧
    (backtest_strategy bars name ic).trades
      = (forceClose ic (bars.getLast h) (runBars ic bars)).trades := by
  refine ⟨by simp [forceClose, hheld], by simp [forceClose, hheld], ?_⟩
  cases bars with
  | nil => exact absurd rfl h
  | cons b0 rest =>
      simp only [backtest_strategy]
      split
      · next hzero =>
          exfalso
          simp [forceClose, hheld] at hzero
      · rfl

/-- C8 witness: the forced liquidation on the concrete 2-bar buy-and-hold
run: bought on day 1, still long, force-closed at day 2's close 12. -/
theorem forced_liquidation_witness :
    openEndBars ≠ [] ∧ (runBars 1 openEndBars).held = true ∧
    (backtest_strategy openEndBars "s" 1).trades
      = (forceClose 1 (openEndBars.getLast (by decide)) (runBars 1 openEndBars)).trades :=
  ⟨by decide, by decide,
   (forced_liquidation openEndBars "s" 1 (by decide) (by decide)).2.2⟩

/-- Exhaustive case analysis of one loop iteration: the buy branch, the sell
branch with the exact trade it appends, or a no-change step. -/
lemma processBar_cases (ic : ℚ) (st : BTState) (b : Bar) :
    (b.signal = 1 ∧ st.held = false ∧
      (processBar ic st b).trades = st.trades ∧
      (processBar ic st b).held = true ∧
      (processBar ic st b).entry_date = b.date ∧
      (processBar ic st b).entry_price = b.close ∧
      (processBar ic st b).holding_shares = st.capital / b.close ∧
      (processBar ic st b).capital = 0) ∨
    (b.signal = -1 ∧ st.held = true ∧
      (processBar ic st b).held = false ∧
      (processBar ic st b).capital = st.holding_shares * b.close ∧
      (processBar ic st b).trades
        = st.trades ++ [{ entry_date := st.entry_date, entry_price := st.entry_price
                        , exit_date := b.date, exit_price := b.close
                        , ret := (b.close - st.entry_price) / st.entry_price * 100
                        , return_abs := st.holding_shares * b.close - ic
                        , hold_days := b.date - st.entry_date }]) ∨
    ((processBar ic st b).trades = st.trades ∧
      (processBar ic st b).held = st.held ∧
      (processBar ic st b).entry_date = st.entry_date ∧
      (processBar ic st b).entry_price = st.entry_price ∧
      (processBar ic st b).holding_shares = st.holding_shares ∧
      (processBar ic st b).capital = st.capital) := by
  by_cases h1 : b.signal = 1 ∧ st.held = false
  · refine Or.inl ⟨h1.1, h1.2, ?_, ?_, ?_, ?_, ?_, ?_⟩ <;>
      simp [processBar, h1.1, h1.2]
  · by_cases h2 : b.signal = -1 ∧ st.held = true
    · refine Or.inr (Or.inl ⟨h2.1, h2.2, ?_, ?_, ?_⟩) <;>
        simp [processBar, h1, h2.1, h2.2]
    · refine Or.inr (Or.inr ⟨?_, ?_, ?_, ?_, ?_, ?_⟩) <;>
        simp [processBar, h1, h2]

/-- Ledger invariant carried through the bar loop under strictly ascending
bar dates: the recorded trades never overlap, and while long, every recorded
exit lies at or before the open entry date. -/
lemma foldl_ledger_inv (ic : ℚ) :
    ∀ (bars : List Bar) (st : BTState),
      List.Pairwise (fun a b => a.date < b.date) bars →
      (∀ b ∈ bars, ∀ t ∈ st.trades, t.exit_date ≤ b.date) →
      (st.held = true → (∀ t ∈ st.trades, t.exit_date ≤ st.entry_date) ∧
        ∀ b ∈ bars, st.entry_date ≤ b.date) →
      List.Chain' (fun t1 t2 => t1.exit_date ≤ t2.entry_date) st.trades →
      List.Chain' (fun t1 t2 => t1.exit_date ≤ t2.entry_date)
          (bars.foldl (processBar ic) st).trades ∧
      ((bars.foldl (processBar ic) st).held = true →
        ∀ t ∈ (bars.foldl (processBar ic) st).trades,
          t.exit_date ≤ (bars.foldl (processBar ic) st).entry_date) := by
  intro bars
  induction bars with
  | nil =>
      intro st _ _ hpos hch
      exact ⟨hch, fun hh => (hpos hh).1⟩
  | cons b rest ih =>
      intro st hpw hb hpos hch
      rw [List.foldl_cons]
      rcases List.pairwise_cons.mp hpw with ⟨hblt, hpw'⟩
      rcases processBar_cases ic st b with hbuy | hsell | hnoop
      · obtain ⟨_, _, htr, _, hed, _, _, _⟩ := hbuy
        apply ih _ hpw'
        · intro b' hb' t ht
          rw [htr] at ht
          exact hb b' (List.mem_cons_of_mem _ hb') t ht
        · intro _
          refine ⟨?_, ?_⟩
          · intro t ht
            rw [htr] at ht
            rw [hed]
            exact hb b (List.mem_cons_self _ _) t ht
          · intro b' hb'
            rw [hed]
            exact le_of_lt (hblt b' hb')
        · rw [htr]; exact hch
      · obtain ⟨_, hh, hhd, _, htr⟩ := hsell
        apply ih _ hpw'
        · intro b' hb' t ht
          rw [htr] at ht
          rcases List.mem_append.mp ht with hmem | hmem
          · exact hb b' (List.mem_cons_of_mem _ hb') t hmem
          · have ht' : t.exit_date = b.date := by
              simp only [List.mem_singleton] at hmem
              rw [hmem]
            rw [ht']
            exact le_of_lt (hblt b' hb')
        · intro hcontra
          rw [hhd] at hcontra
          exact absurd hcontra (by simp)
        · rw [htr, List.chain'_append]
          refine ⟨hch, List.chain'_singleton _, ?_⟩
          intro x hx y hy
          simp only [List.head?_cons, Option.mem_some_iff] at hy
          obtain ⟨hne, hxl⟩ := List.mem_getLast?_eq_getLast hx
          have hxmem : x ∈ st.trades := hxl ▸ List.getLast_mem hne
          rw [← hy]
          exact (hpos hh).1 x hxmem
      · obtain ⟨htr, hhd, hed, _, _, _⟩ := hnoop
        apply ih _ hpw'
        · intro b' hb' t ht
          rw [htr] at ht
          exact hb b' (List.mem_cons_of_mem _ hb') t ht
        · intro hh
          rw [hhd] at hh
          refine ⟨?_, ?_⟩
          · intro t ht
            rw [htr] at ht
            rw [hed]
            exact (hpos hh).1 t ht
          · intro b' hb'
            rw [hed]
            exact (hpos hh).2 b' (List.mem_cons_of_mem _ hb')
        · rw [htr]; exact hch

/-- C7: on any input whose bar dates are strictly ascending (the data-model
invariant of the price series), the trades of a backtest run never overlap:
each trade's exit date is at most the next trade's entry date. -/
theorem trades_no_overlap (bars : List Bar) (name : String) (ic : ℚ)
    (hpw : List.Pairwise (fun a b => a.date < b.date) bars) :
    List.Chain' (fun t1 t2 => t1.exit_date ≤ t2.entry_date)
      (backtest_strategy bars name ic).trades := by
  cases bars with
  | nil => exact List.chain'_nil
  | cons b0 rest =>
      have hinv := foldl_ledger_inv ic (b0 :: rest) (initState ic) hpw
        (by intro b' _ t ht; simp [initState] at ht)
        (by intro hh; simp [initState] at hh)
        (by simp [initState])
      have hfc : List.Chain' (fun t1 t2 => t1.exit_date ≤ t2.entry_date)
          (forceClose ic ((b0 :: rest).getLast (List.cons_ne_nil b0 rest))
            ((b0 :: rest).foldl (processBar ic) (initState ic))).trades := by
        unfold forceClose
        split
        · next hh =>
            rw [List.chain'_append]
            refine ⟨hinv.1, List.chain'_singleton _, ?_⟩
            intro x hx y hy
            simp only [List.head?_cons, Option.mem_some_iff] at hy
            obtain ⟨hne, hxl⟩ := List.mem_getLast?_eq_getLast hx
            have hxmem := hxl ▸ List.getLast_mem hne
            rw [← hy]
            exact hinv.2 hh x hxmem
        · exact hinv.1
      simp only [backtest_strategy]
      split
      · exact List.chain'_nil
      · exact hfc

/-- C7 witness: the no-overlap chain on the concrete 4-bar run that closes
two consecutive trades. -/
theorem trades_no_overlap_witness :
    List.Pairwise (fun a b => a.date < b.date) twoTradeBars ∧
    List.Chain' (fun t1 t2 => t1.exit_date ≤ t2.entry_date)
      (backtest_strategy twoTradeBars "s" 1).trades :=
  ⟨by decide, trades_no_overlap twoTradeBars "s" 1 (by decide)⟩

/-- The profit factor as the claim words it (comparison definition, written
from the spec sentence, not from the source): sum of the winning trades'
absolute return_abs divided by the sum of the losing trades' absolute
return_abs, and 0 when there are no losing trades. -/
def profit_factor_claimed (trades : List Trade) : ℚ :=
  let wins := trades.filter (fun t => t.ret > 0)
  let losses := trades.filter (fun t => t.ret ≤ 0)
  if losses = [] then 0
  else (wins.map (fun t => |t.return_abs|)).sum / (losses.map (fun t => |t.return_abs|)).sum

/-- C9 counterexample: on the 4-bar two-trade run the code's profit factor
is -9/10 (the winning trade's return_abs is the cumulative -9/20, summed
without taking absolute values), while the claim's formula gives +9/10. -/
theorem profit_factor_counterexample :
    (backtest_strategy twoTradeBars "s" 1).profit_factor = -9 / 10 ∧
    profit_factor_claimed (backtest_strategy twoTradeBars "s" 1).trades = 9 / 10 ∧
    ¬ ((backtest_strategy twoTradeBars "s" 1).profit_factor
        = profit_factor_claimed (backtest_strategy twoTradeBars "s" 1).trades) := by
  refine ⟨?_, ?_, ?_⟩ <;>
    norm_num [backtest_strategy, runBars, forceClose, processBar, initState,
      twoTradeBars, profit_factor_claimed, _calculate_max_drawdown, List.getLast,
      List.filter, abs_of_pos]

/-- C9 (amended): for every backtest result, profit_factor equals the signed
sum of the winning trades' return_abs divided by the absolute value of the
sum of the losing trades' return_abs, and it is 0 by convention whenever
that denominator is not positive — in particular when there are no losing
trades. -/
theorem profit_factor_amended (bars : List Bar) (name : String) (ic : ℚ) :
    (backtest_strategy bars name ic).profit_factor
      = (if 0 < |(((backtest_strategy bars name ic).trades.filter
                    (fun t => t.ret ≤ 0)).map (fun t => t.return_abs)).sum|
         then (((backtest_strategy bars name ic).trades.filter
                  (fun t => t.ret > 0)).map (fun t => t.return_abs)).sum
                / |(((backtest_strategy bars name ic).trades.filter
                      (fun t => t.ret ≤ 0)).map (fun t => t.return_abs)).sum|
         else 0) := by
  cases bars with
  | nil => simp [backtest_strategy, _empty_result]
  | cons b0 rest =>
      simp only [backtest_strategy]
      split
      · simp [_empty_result]
      · dsimp only
        by_cases hl : ((forceClose ic ((b0 :: rest).getLast (List.cons_ne_nil b0 rest))
              (runBars ic (b0 :: rest))).trades.filter (fun t => t.ret ≤ 0)) = []
        · simp [hl]
        · by_cases hw : ((forceClose ic ((b0 :: rest).getLast (List.cons_ne_nil b0 rest))
                (runBars ic (b0 :: rest))).trades.filter (fun t => t.ret > 0)) = []
          · simp [hl, hw]
          · simp [hl, hw]

/-- Product of exit/entry price ratios over a trade list: the factor by
which the run's capital has been multiplied once those trades are closed. -/
def cumFactor (trades : List Trade) : ℚ :=
  (trades.map (fun t => t.exit_price / t.entry_price)).prod

lemma cumFactor_append_single (l : List Trade) (t : Trade) :
    cumFactor (l ++ [t]) = cumFactor l * (t.exit_price / t.entry_price) := by
  unfold cumFactor
  rw [List.map_append, List.prod_append]
  simp

lemma sell_capital (ic F shares entry close : ℚ) (hpe : 0 < entry)
    (hle : shares * entry = ic * F) :
    ic * (F * (close / entry)) = shares * close := by
  have h : entry ≠ 0 := ne_of_gt hpe
  calc ic * (F * (close / entry)) = (ic * F) * (close / entry) := by ring
    _ = (shares * entry) * (close / entry) := by rw [hle]
    _ = shares * close := by
        field_simp
        ring

/-- Extending the per-trade cumulative-profit property across an appended
closing trade. -/
lemma cumProfits_append (ic : ℚ) (l : List Trade) (tr : Trade)
    (hidx : ∀ (k : ℕ) (t : Trade), l[k]? = some t →
      t.return_abs = ic * cumFactor (l.take (k + 1)) - ic)
    (ht : tr.return_abs = ic * cumFactor (l ++ [tr]) - ic) :
    ∀ (k : ℕ) (t : Trade), (l ++ [tr])[k]? = some t →
      t.return_abs = ic * cumFactor ((l ++ [tr]).take (k + 1)) - ic := by
  intro k t hkt
  rcases lt_or_ge k l.length with hlt | hge
  · rw [List.getElem?_append_left hlt] at hkt
    rw [List.take_append_of_le_length (by omega)]
    exact hidx k t hkt
  · rw [List.getElem?_append_right hge] at hkt
    rcases hd : k - l.length with _ | n
    · have hk' : k = l.length := by omega
      rw [hd, List.getElem?_cons_zero] at hkt
      obtain rfl : tr = t := by injection hkt
      rw [List.take_of_length_le (by simp [hk'])]
      exact ht
    · rw [hd] at hkt
      simp at hkt

/-- Capital invariant carried through the bar loop on positive closes: cash
while flat (shares-times-entry while long) equals the initial capital times
the product of closed ratios, and every recorded trade's return_abs is the
cumulative profit of the trades up to and including it. -/
lemma foldl_capital_inv (ic : ℚ) :
    ∀ (bars : List Bar) (st : BTState),
      (∀ b ∈ bars, 0 < b.close) →
      (st.held = false → st.capital = ic * cumFactor st.trades) →
      (st.held = true → st.holding_shares * st.entry_price = ic * cumFactor st.trades ∧
        0 < st.entry_price) →
      (∀ (k : ℕ) (t : Trade), st.trades[k]? = some t →
        t.return_abs = ic * cumFactor (st.trades.take (k + 1)) - ic) →
      ((bars.foldl (processBar ic) st).held = false →
        (bars.foldl (processBar ic) st).capital
          = ic * cumFactor (bars.foldl (processBar ic) st).trades) ∧
      ((bars.foldl (processBar ic) st).held = true →
        (bars.foldl (processBar ic) st).holding_shares
            * (bars.foldl (processBar ic) st).entry_price
          = ic * cumFactor (bars.foldl (processBar ic) st).trades ∧
        0 < (bars.foldl (processBar ic) st).entry_price) ∧
      (∀ (k : ℕ) (t : Trade), (bars.foldl (processBar ic) st).trades[k]? = some t →
        t.return_abs
          = ic * cumFactor ((bars.foldl (processBar ic) st).trades.take (k + 1)) - ic) := by
  intro bars
  induction bars with
  | nil =>
      intro st _ hflat hlong hidx
      exact ⟨hflat, hlong, hidx⟩
  | cons b rest ih =>
      intro st hcl hflat hlong hidx
      have hb0 : 0 < b.close := hcl b (List.mem_cons_self _ _)
      have hcl' : ∀ b' ∈ rest, 0 < b'.close :=
        fun b' hb' => hcl b' (List.mem_cons_of_mem _ hb')
      rw [List.foldl_cons]
      rcases processBar_cases ic st b with hbuy | hsell | hnoop
      · obtain ⟨_, hf, htr, hhd, _, hep, hhs, _⟩ := hbuy
        apply ih _ hcl'
        · intro h
          rw [hhd] at h
          exact absurd h (by simp)
        · intro _
          rw [hhs, hep, htr]
          refine ⟨?_, hb0⟩
          rw [div_mul_cancel₀ _ (ne_of_gt hb0)]
          exact hflat hf
        · rw [htr]; exact hidx
      · obtain ⟨_, hh, hhd, hcap, htr⟩ := hsell
        obtain ⟨hle, hpe⟩ := hlong hh
        have hkey : ic * cumFactor ((processBar ic st b).trades)
            = st.holding_shares * b.close := by
          rw [htr, cumFactor_append_single]
          exact sell_capital ic (cumFactor st.trades) st.holding_shares
            st.entry_price b.close hpe hle
        apply ih _ hcl'
        · intro _
          rw [hcap, hkey]
        · intro h
          rw [hhd] at h
          exact absurd h (by simp)
        · rw [htr]
          apply cumProfits_append ic st.trades _ hidx
          rw [← htr, hkey]
      · obtain ⟨htr, hhd, _, hep, hhs, hcap⟩ := hnoop
        apply ih _ hcl'
        · intro h
          rw [hhd] at h
          rw [hcap, htr]
          exact hflat h
        · intro h
          rw [hhd] at h
          rw [hhs, hep, htr]
          exact hlong h
        · rw [htr]; exact hidx

/-- C10: for every run on positive closes, each recorded trade's return_abs
field equals the whole run's capital right after that trade's exit minus the
run's initial capital — the cumulative profit of all trades up to and
including it (initial capital times the product of exit/entry ratios of the
first k+1 trades, minus the initial capital) — and, concretely, on the
4-bar two-trade run the second trade wins by return percentage (+10) while
its return_abs is negative (-9/20). -/
theorem return_abs_cumulative :
    (∀ (bars : List Bar) (name : String) (ic : ℚ),
      (∀ b ∈ bars, 0 < b.close) →
      ∀ (k : ℕ) (t : Trade), (backtest_strategy bars name ic).trades[k]? = some t →
        t.return_abs
          = ic * cumFactor ((backtest_strategy bars name ic).trades.take (k + 1)) - ic) ∧
    ((backtest_strategy twoTradeBars "s" 1).trades.map (fun t => (t.ret, t.return_abs))
      = [(-50, -(1 / 2)), (10, -(9 / 20))]) := by
  constructor
  · intro bars name ic hcl k t hkt
    revert hkt
    cases bars with
    | nil => intro hkt; simp [backtest_strategy, _empty_result] at hkt
    | cons b0 rest =>
        have hinv := foldl_capital_inv ic (b0 :: rest) (initState ic) hcl
          (by intro _; simp [initState, cumFactor])
          (by intro h; simp [initState] at h)
          (by intro k t hkt; simp [initState] at hkt)
        have hfc : ∀ (k : ℕ) (t : Trade),
            (forceClose ic ((b0 :: rest).getLast (List.cons_ne_nil b0 rest))
                ((b0 :: rest).foldl (processBar ic) (initState ic))).trades[k]? = some t →
            t.return_abs
              = ic * cumFactor ((forceClose ic
                  ((b0 :: rest).getLast (List.cons_ne_nil b0 rest))
                  ((b0 :: rest).foldl (processBar ic) (initState ic))).trades.take
                    (k + 1)) - ic := by
          by_cases hh : ((b0 :: rest).foldl (processBar ic) (initState ic)).held = true
          · obtain ⟨hle, hpe⟩ := hinv.2.1 hh
            have htr : (forceClose ic ((b0 :: rest).getLast (List.cons_ne_nil b0 rest))
                  ((b0 :: rest).foldl (processBar ic) (initState ic))).trades
                = ((b0 :: rest).foldl (processBar ic) (initState ic)).trades ++
                  [{ entry_date := ((b0 :: rest).foldl (processBar ic) (initState ic)).entry_date
                   , entry_price := ((b0 :: rest).foldl (processBar ic) (initState ic)).entry_price
                   , exit_date := ((b0 :: rest).getLast (List.cons_ne_nil b0 rest)).date
                   , exit_price := ((b0 :: rest).getLast (List.cons_ne_nil b0 rest)).close
                   , ret := (((b0 :: rest).getLast (List.cons_ne_nil b0 rest)).close
                        - ((b0 :: rest).foldl (processBar ic) (initState ic)).entry_price)
                        / ((b0 :: rest).foldl (processBar ic) (initState ic)).entry_price * 100
                   , return_abs := ((b0 :: rest).foldl (processBar ic) (initState ic)).holding_shares
                        * ((b0 :: rest).getLast (List.cons_ne_nil b0 rest)).close - ic
                   , hold_days := ((b0 :: rest).getLast (List.cons_ne_nil b0 rest)).date
                        - ((b0 :: rest).foldl (processBar ic) (initState ic)).entry_date }] := by
              unfold forceClose
              rw [if_pos hh]
            rw [htr]
            apply cumProfits_append ic _ _ hinv.2.2
            rw [cumFactor_append_single]
            show _ * _ - ic = _
            rw [sell_capital ic _ _ _ _ hpe hle]
          · have htr : (forceClose ic ((b0 :: rest).getLast (List.cons_ne_nil b0 rest))
                  ((b0 :: rest).foldl (processBar ic) (initState ic))).trades
                = ((b0 :: rest).foldl (processBar ic) (initState ic)).trades := by
              unfold forceClose
              rw [if_neg hh]
            rw [htr]
            exact hinv.2.2
        simp only [backtest_strategy]
        split
        · intro hkt
          simp [_empty_result] at hkt
        · intro hkt
          exact hfc k t hkt
  · norm_num [backtest_strategy, runBars, forceClose, processBar, initState,
      twoTradeBars, _calculate_max_drawdown, List.getLast]

/-- C10 witness: the cumulative-profit identity at the second trade of the
concrete 4-bar run (all closes positive): its return_abs is the whole-run
profit 1 * (50/100)*(55/50) - 1 = -9/20, not the trade's own +10 percent. -/
theorem return_abs_cumulative_witness :
    (∀ b ∈ twoTradeBars, 0 < b.close) ∧
    ((backtest_strategy twoTradeBars "s" 1).trades[1]?
      = some { entry_date := 3, entry_price := 50, exit_date := 4, exit_price := 55
             , ret := 10, return_abs := -(9 / 20), hold_days := 1 }) ∧
    ({ entry_date := 3, entry_price := 50, exit_date := 4, exit_price := 55
     , ret := 10, return_abs := -(9 / 20), hold_days := 1 } : Trade).return_abs
      = 1 * cumFactor ((backtest_strategy twoTradeBars "s" 1).trades.take 2) - 1 := by
  have hget : (backtest_strategy twoTradeBars "s" 1).trades[1]?
      = some { entry_date := 3, entry_price := 50, exit_date := 4, exit_price := 55
             , ret := 10, return_abs := -(9 / 20), hold_days := 1 } := by
    norm_num [backtest_strategy, runBars, forceClose, processBar, initState,
      twoTradeBars, _calculate_max_drawdown, List.getLast]
  exact ⟨by decide, hget,
    return_abs_cumulative.1 twoTradeBars "s" 1 (by decide) 1 _ hget⟩

end Quant






